import Mathlib

/-!
# Verification of the ID-card generator's merge engine and data model

Shallow embedding of `src/App.tsx` (a browser-based ID-card designer).
JavaScript numbers are modelled as rationals (`ℚ`), JS objects holding
person records as association lists with JS property-assignment semantics
(`setKey` updates an existing key in place, else appends), and the jsPDF
document as an explicit descriptor of pages, each page being the ordered
list of draw calls issued against it.
-/

namespace IDCard

/-! ## JS string primitives

The source uses `String.prototype.trim`, and `split` with a one-character
separator.  These are re-implemented structurally over the character list
so that every definition evaluates inside the kernel. -/

/-- JS whitespace test for the characters relevant here (`trim`). -/
def isWs (c : Char) : Bool :=
  c = ' ' || c = '\t' || c = '\n' || c = '\r'

/-- `String.prototype.trim` on a character list: strip leading and
trailing whitespace. -/
def trimList (l : List Char) : List Char :=
  ((l.dropWhile isWs).reverse.dropWhile isWs).reverse

/-- JS `s.trim()`. -/
def jsTrim (s : String) : String :=
  String.mk (trimList s.data)

/-- JS `split` with a single-character separator, on a character list.
`[] ↦ [[]]` matches JS `"".split(sep) == [""]`. -/
def splitChar (sep : Char) : List Char → List (List Char)
  | [] => [[]]
  | c :: cs =>
    let r := splitChar sep cs
    if c = sep then [] :: r
    else
      match r with
      | [] => [[c]]
      | h :: t => (c :: h) :: t

/-- JS `s.split(sep)` for a one-character separator string. -/
def jsSplit (sep : Char) (s : String) : List String :=
  (splitChar sep s.data).map String.mk

end IDCard

namespace IDCard

/-! ## Unit conversion helpers (`cmToPx`, `mmToPx`, `pxToMm`) -/

/-- `const cmToPx = (cm, dpi = 96) => (cm / 2.54) * dpi` -/
def cmToPx (cm : ℚ) (dpi : ℚ) : ℚ := (cm / 2.54) * dpi

/-- `const mmToPx = (mm, dpi = 96) => (mm / 25.4) * dpi` -/
def mmToPx (mm : ℚ) (dpi : ℚ) : ℚ := (mm / 25.4) * dpi

/-- `const pxToMm = (px, dpi = 96) => (px * 25.4) / dpi` -/
def pxToMm (px : ℚ) (dpi : ℚ) : ℚ := (px * 25.4) / dpi

end IDCard

namespace IDCard

/-! ## Person records and the bulk CSV import (`handleBulkUpload`)

A JS object `{id: ..., [key]: string}` is an association list in
property-insertion order: assigning to an existing key overwrites its
value in place, assigning to a new key appends it. -/

/-- `interface Person { id: string; [key: string]: string }`, as the
ordered key/value list of the JS object. -/
abbrev Person := List (String × String)

/-- JS property read `m[k]`: first (unique) matching key, `none` for
`undefined`. -/
def lookupKey (k : String) : Person → Option String
  | [] => none
  | (k', v) :: rest => if k' = k then some v else lookupKey k rest

/-- JS property write `m[k] = v`: overwrite an existing key in place,
else append. -/
def setKey (m : Person) (k v : String) : Person :=
  match m with
  | [] => [(k, v)]
  | (k', v') :: rest => if k' = k then (k, v) :: rest else (k', v') :: setKey rest k v

/-- The header loop of `handleBulkUpload`, starting at column `idx`:
`headers.forEach((header, index) => { if (values[index]) person[header] = values[index] })`.
Values are already trimmed; an absent (`undefined`) or empty value is
falsy in JS and skips the column. -/
def insertCols (m : Person) (idx : ℕ) (headers values : List String) : Person :=
  match headers with
  | [] => m
  | h :: hs =>
    let m' :=
      match values[idx]? with
      | some v => if v = "" then m else setKey m h v
      | none => m
    insertCols m' (idx + 1) hs values

/-- One record of the import: `const person = { id: <fresh> }` followed by
the header loop over this row's trimmed values. -/
def buildPerson (freshId : String) (headers values : List String) : Person :=
  insertCols [("id", freshId)] 0 headers values

/-- `text.trim().split('\n')` — the line list `handleBulkUpload` works on. -/
def linesOf (text : String) : List String :=
  jsSplit '\n' (jsTrim text)

/-- `handleBulkUpload(text)` as a function of the previous table.
`gen i` stands for the `Math.random().toString(36).substr(2, 9)` id drawn
for data row `i`.  Fewer than two lines: return the table unchanged
(the source returns without calling `setPeople`); otherwise the table is
replaced wholesale by the parsed records. -/
def handleBulkUpload (gen : ℕ → String) (text : String) (people : List Person) :
    List Person :=
  let lines := linesOf text
  if lines.length < 2 then people
  else
    match lines with
    | [] => people
    | l0 :: rest =>
      let headers := (jsSplit ',' l0).map jsTrim
      rest.enum.map fun (i, line) =>
        buildPerson (gen i) headers ((jsSplit ',' line).map jsTrim)

end IDCard

namespace IDCard

/-! ## Card configuration, fields and templates -/

/-- `interface CardConfig { width: number; height: number; dpi: number }`
(width/height in cm). -/
structure CardConfig where
  width : ℚ
  height : ℚ
  dpi : ℚ
deriving DecidableEq, Repr

/-- `const DEFAULT_CONFIG = { width: 14, height: 9.5, dpi: 96 }` -/
def DEFAULT_CONFIG : CardConfig := ⟨14, 9.5, 96⟩

/-- `side: 'front' | 'back'` -/
inductive Side where
  | front
  | back
deriving DecidableEq, Repr

/-- `align: 'left' | 'center' | 'right'` -/
inductive Align where
  | left
  | center
  | right
deriving DecidableEq, Repr

/-- `interface Field` — a positioned, styled text anchor bound to a data
key and a card side. -/
structure Field where
  id : String
  name : String
  x : ℚ
  y : ℚ
  fontSize : ℚ
  color : String
  fontFamily : String
  align : Align
  side : Side
deriving DecidableEq, Repr

/-- The two optional background data URLs,
`{ front: string | null; back: string | null }`. -/
structure Templates where
  front : Option String
  back : Option String
deriving DecidableEq, Repr

end IDCard

namespace IDCard

/-! ## The jsPDF document descriptor and `generatePDF`

A page is the ordered list of draw calls issued against it; the document
records the constructor's orientation and `[width*10, height*10]` format
and the page list. -/

/-- One text run: the arguments of
`doc.setFontSize/setTextColor/setFont` + `doc.text(text, x, y, {align})`. -/
structure TextRun where
  text : String
  x : ℚ
  y : ℚ
  fontSize : ℚ
  color : String
  fontFamily : String
  align : Align
deriving DecidableEq, Repr

/-- A draw call against the current page. -/
inductive DrawOp where
  | image (data : String) (x y w h : ℚ)
  | fillRect (r g b : ℕ) (x y w h : ℚ)
  | text (run : TextRun)
deriving DecidableEq, Repr

/-- A page is its ordered list of draw calls. -/
abbrev Page := List DrawOp

/-- `orientation: config.width > config.height ? 'l' : 'p'` -/
inductive Orientation where
  | landscape
  | portrait
deriving DecidableEq, Repr

/-- The produced document: constructor options plus the page sequence. -/
structure Document where
  orientation : Orientation
  formatW : ℚ
  formatH : ℚ
  pages : List Page
deriving DecidableEq, Repr

/-- `const text = person[f.name] || f.name` — the key's value when present
and non-empty (the empty string is falsy), else the field's own name. -/
def resolveText (p : Person) (f : Field) : String :=
  match lookupKey f.name p with
  | some v => if v = "" then f.name else v
  | none => f.name

/-- The text run emitted for field `f` on person `p`'s page. -/
def mkRun (p : Person) (f : Field) : TextRun :=
  ⟨resolveText p f, f.x, f.y, f.fontSize, f.color, f.fontFamily, f.align⟩

/-- One side's page: background image if present else a white fill over
the whole card, then the side's fields in list order. -/
def sidePage (tmplSide : Option String) (wm hm : ℚ) (fields : List Field)
    (side : Side) (p : Person) : Page :=
  (match tmplSide with
   | some img => DrawOp.image img 0 0 wm hm
   | none => DrawOp.fillRect 255 255 255 0 0 wm hm) ::
  (fields.filter fun f => f.side = side).map fun f => DrawOp.text (mkRun p f)

/-- `templates.back || fields.some(f => f.side === 'back')` -/
def hasBackContent (tmpl : Templates) (fields : List Field) : Bool :=
  tmpl.back.isSome || fields.any fun f => f.side = Side.back

/-- The page(s) the loop body emits for one person: always a front page,
and a back page exactly when back content exists. -/
def personPages (tmpl : Templates) (fields : List Field) (wm hm : ℚ)
    (p : Person) : List Page :=
  sidePage tmpl.front wm hm fields Side.front p ::
  (if hasBackContent tmpl fields then [sidePage tmpl.back wm hm fields Side.back p] else [])

/-- `generatePDF` as a pure function: the document produced for a given
configuration, templates, field list and person table.  `new jsPDF(...)`
creates one blank initial page; person 0 draws on it and every later
page comes from `doc.addPage`, so for a non-empty table the page list is
the concatenation of each person's pages, and for an empty table the
blank initial page is all there is. -/
def generatePDF (cfg : CardConfig) (tmpl : Templates) (fields : List Field)
    (people : List Person) : Document :=
  let wm := cfg.width * 10
  let hm := cfg.height * 10
  { orientation := if cfg.width > cfg.height then Orientation.landscape else Orientation.portrait
    formatW := wm
    formatH := hm
    pages :=
      match people with
      | [] => [[]]
      | _ => people.flatMap (personPages tmpl fields wm hm) }

end IDCard

namespace IDCard

/-! ## Card-configuration updates (the `DesignTab` dimension inputs)

`onChange={(e) => setConfig({...config, width: parseFloat(e.target.value) || 0})}`
and likewise for height.  `parseFloat` of a non-numeric string is `NaN`,
which `|| 0` coerces to `0`; a parse result of `0` also stays `0` and any
other parsed number passes through.  We model the parse result as
`Option ℚ` (`none` = `NaN`).  No handler ever writes `dpi`. -/

/-- `v || 0` applied to a `parseFloat` result (`none` = `NaN`). -/
def parsedOrZero : Option ℚ → ℚ
  | none => 0
  | some q => q

/-- The configuration-update operations the UI exposes. -/
inductive ConfigOp where
  | setWidth (v : Option ℚ)
  | setHeight (v : Option ℚ)
deriving DecidableEq, Repr

/-- One `setConfig({...config, ...})` step. -/
def stepConfig (c : CardConfig) : ConfigOp → CardConfig
  | ConfigOp.setWidth v => { c with width := parsedOrZero v }
  | ConfigOp.setHeight v => { c with height := parsedOrZero v }

/-- The configuration reached from `DEFAULT_CONFIG` by a sequence of
dimension edits. -/
def reachConfig (ops : List ConfigOp) : CardConfig :=
  ops.foldl stepConfig DEFAULT_CONFIG

end IDCard

namespace IDCard

/-! ## Field CRUD and the selection reference -/

/-- `Partial<Field>`: the optional overrides a `updateField` call may
carry (every property of `Field`, including `id`, is optional in the
TypeScript type). -/
structure FieldUpdate where
  id : Option String := none
  name : Option String := none
  x : Option ℚ := none
  y : Option ℚ := none
  fontSize : Option ℚ := none
  color : Option String := none
  fontFamily : Option String := none
  align : Option Align := none
  side : Option Side := none
deriving DecidableEq, Repr

/-- `{ ...f, ...updates }`: spread-merge of the overrides into a field. -/
def applyUpdate (f : Field) (u : FieldUpdate) : Field :=
  { id := u.id.getD f.id
    name := u.name.getD f.name
    x := u.x.getD f.x
    y := u.y.getD f.y
    fontSize := u.fontSize.getD f.fontSize
    color := u.color.getD f.color
    fontFamily := u.fontFamily.getD f.fontFamily
    align := u.align.getD f.align
    side := u.side.getD f.side }

/-- `fields.map(f => f.id === id ? { ...f, ...updates } : f)` -/
def updateFieldList (fields : List Field) (id : String) (u : FieldUpdate) :
    List Field :=
  fields.map fun f => if f.id = id then applyUpdate f u else f

/-- `fields.filter(f => f.id !== id)` -/
def removeFieldList (fields : List Field) (id : String) : List Field :=
  fields.filter fun f => f.id ≠ id

/-- The field the `addField` handler creates: generated id, name
`'New Field'`, centred `x = width*5`, `y = height*5` (cm → mm midpoint),
default style, currently active side. -/
def newFieldFor (newId : String) (cfg : CardConfig) (side : Side) : Field :=
  ⟨newId, "New Field", cfg.width * 5, cfg.height * 5, 14, "#000000", "helvetica",
    Align.left, side⟩

/-- The design-tab state the field operations act on: the field list and
the `selectedFieldId` reference. -/
structure EditorState where
  fields : List Field
  selected : Option String
deriving DecidableEq, Repr

/-- The initial `useState` values: the two seed fields, nothing selected. -/
def initEditorState : EditorState :=
  { fields :=
      [⟨"f1", "Full Name", 70, 40, 24, "#000000", "helvetica", Align.center, Side.front⟩,
       ⟨"f2", "Role", 70, 55, 16, "#2563EB", "helvetica", Align.center, Side.front⟩]
    selected := none }

/-- The three field operations.  `add` carries the generated id, the
current configuration and active side it reads. -/
inductive FieldOp where
  | add (newId : String) (cfg : CardConfig) (side : Side)
  | update (id : String) (u : FieldUpdate)
  | remove (id : String)
deriving DecidableEq, Repr

/-- One step: `addField` appends and selects the new field; `updateField`
maps the merge over matching ids; `removeField` filters the id out and
clears the selection when it was the removed one. -/
def stepFields (s : EditorState) : FieldOp → EditorState
  | FieldOp.add newId cfg side =>
      { fields := s.fields ++ [newFieldFor newId cfg side], selected := some newId }
  | FieldOp.update id u =>
      { fields := updateFieldList s.fields id u, selected := s.selected }
  | FieldOp.remove id =>
      { fields := removeFieldList s.fields id
        selected := if s.selected = some id then none else s.selected }

/-- The editor state reached from the initial state by a sequence of
field operations. -/
def reachFields (ops : List FieldOp) : EditorState :=
  ops.foldl stepFields initEditorState

/-- The selection is `null` or the id of a field present in the list. -/
def SelInv (s : EditorState) : Prop :=
  ∀ i : String, s.selected = some i → ∃ f ∈ s.fields, f.id = i

instance (s : EditorState) : Decidable (SelInv s) := by
  unfold SelInv
  cases s.selected <;> simp <;> infer_instance

end IDCard

namespace IDCard

/-! ## Helper lemmas -/

/-- Concatenating lists of a common length `c` multiplies the length. -/
lemma length_flatMap_const {α β : Type} (g : α → List β) (c : ℕ)
    (h : ∀ a, (g a).length = c) :
    ∀ l : List α, (l.flatMap g).length = c * l.length := by
  intro l
  induction l with
  | nil => simp
  | cons a l ih => simp [List.flatMap_cons, ih, h a, Nat.mul_succ, Nat.add_comm]

/-- Each person contributes one page, or two when back content exists. -/
lemma personPages_length (tmpl : Templates) (fields : List Field) (wm hm : ℚ)
    (p : Person) :
    (personPages tmpl fields wm hm p).length =
      if hasBackContent tmpl fields then 2 else 1 := by
  unfold personPages
  split <;> rfl

/-- Reading back the key just written. -/
lemma lookupKey_setKey_self (m : Person) (k v : String) :
    lookupKey k (setKey m k v) = some v := by
  induction m with
  | nil => simp [setKey, lookupKey]
  | cons kv rest ih =>
    obtain ⟨k', v'⟩ := kv
    by_cases h : k' = k <;> simp [setKey, lookupKey, h, ih]

/-- Writing one key leaves reads of any other key unchanged. -/
lemma lookupKey_setKey_ne (m : Person) (k k' v : String) (h : k' ≠ k) :
    lookupKey k (setKey m k' v) = lookupKey k m := by
  induction m with
  | nil => simp [setKey, lookupKey, h]
  | cons kv rest ih =>
    obtain ⟨k₀, v₀⟩ := kv
    by_cases h₀ : k₀ = k'
    · subst h₀; simp [setKey, lookupKey, h]
    · simp [setKey, lookupKey, h₀, ih]

/-- A text draw call on a side's page comes from one of that side's
fields, merged through `mkRun`. -/
lemma text_mem_sidePage {ts : Option String} {wm hm : ℚ} {fields : List Field}
    {side : Side} {p : Person} {r : TextRun}
    (hr : DrawOp.text r ∈ sidePage ts wm hm fields side p) :
    ∃ f ∈ fields, r = mkRun p f := by
  unfold sidePage at hr
  rcases List.mem_cons.mp hr with h | h
  · cases ts <;> exact absurd h (by simp)
  · rcases List.mem_map.mp h with ⟨f, hf, heq⟩
    refine ⟨f, (List.mem_filter.mp hf).1, ?_⟩
    injection heq with h'
    exact h'.symm

/-- A page of one person's output is that person's front page or back
page. -/
lemma page_mem_personPages {tmpl : Templates} {fields : List Field} {wm hm : ℚ}
    {p : Person} {pg : Page} (h : pg ∈ personPages tmpl fields wm hm p) :
    pg = sidePage tmpl.front wm hm fields Side.front p ∨
      pg = sidePage tmpl.back wm hm fields Side.back p := by
  unfold personPages at h
  rcases List.mem_cons.mp h with h | h
  · exact Or.inl h
  · split at h
    · simp only [List.mem_singleton] at h
      exact Or.inr h
    · exact absurd h (List.not_mem_nil pg)

/-- Unfolding one column of the header loop. -/
lemma insertCols_cons (m : Person) (idx : ℕ) (h : String) (hs values : List String) :
    insertCols m idx (h :: hs) values =
      insertCols
        (match values[idx]? with
         | some v => if v = "" then m else setKey m h v
         | none => m)
        (idx + 1) hs values := rfl

/-- Columns whose header is not `"id"` never touch the record's `"id"`. -/
lemma insertCols_no_id (headers : List String) (h : "id" ∉ headers) :
    ∀ (m : Person) (idx : ℕ) (values : List String),
      lookupKey "id" (insertCols m idx headers values) = lookupKey "id" m := by
  induction headers with
  | nil => intro m idx values; rfl
  | cons hh hs ih =>
    intro m idx values
    have h1 : "id" ≠ hh := fun hc => h (by rw [hc]; exact List.mem_cons_self _ _)
    have h2 : "id" ∉ hs := fun hc => h (List.mem_cons_of_mem _ hc)
    rw [insertCols_cons]
    cases hval : values[idx]? with
    | none => simp only [hval]; exact ih h2 m (idx + 1) values
    | some w =>
      simp only [hval]
      by_cases hw : w = ""
      · rw [if_pos hw]; exact ih h2 m (idx + 1) values
      · rw [if_neg hw, ih h2]
        exact lookupKey_setKey_ne m "id" hh w (Ne.symm h1)

/-- A non-empty value under an `"id"` header (with no later `"id"`
header) ends up as the record's `"id"`. -/
lemma insertCols_id (pre : List String) :
    ∀ (m : Person) (idx : ℕ) (post values : List String) (v : String),
      "id" ∉ post → values[idx + pre.length]? = some v → v ≠ "" →
      lookupKey "id" (insertCols m idx (pre ++ "id" :: post) values) = some v := by
  induction pre with
  | nil =>
    intro m idx post values v hpost hv hne
    simp only [List.length_nil, Nat.add_zero] at hv
    rw [List.nil_append, insertCols_cons]
    simp only [hv]
    rw [if_neg hne, insertCols_no_id post hpost, lookupKey_setKey_self]
  | cons ph ps ih =>
    intro m idx post values v hpost hv hne
    have hv' : values[(idx + 1) + ps.length]? = some v := by
      rw [show (idx + 1) + ps.length = idx + (ph :: ps).length from by
        simp only [List.length_cons]; omega]
      exact hv
    rw [List.cons_append, insertCols_cons]
    cases hval : values[idx]? with
    | none => simp only [hval]; exact ih _ (idx + 1) post values v hpost hv' hne
    | some w =>
      simp only [hval]
      by_cases hw : w = ""
      · rw [if_pos hw]; exact ih _ (idx + 1) post values v hpost hv' hne
      · rw [if_neg hw]; exact ih _ (idx + 1) post values v hpost hv' hne

end IDCard

namespace IDCard

/-! ## Claim theorems -/

/-- C4: the unit conversions are mutually inverse: for every `x ≥ 0` and
every `d > 0`, `pxToMm (mmToPx x d) d = x` (over exact rational
arithmetic, so the floating-point tolerance of the claim is met
exactly). -/
theorem pxToMm_mmToPx_roundtrip (x d : ℚ) (_hx : 0 ≤ x) (hd : 0 < d) :
    pxToMm (mmToPx x d) d = x := by
  unfold mmToPx pxToMm
  have hd' : d ≠ 0 := ne_of_gt hd
  field_simp

/-- Witness for C4 at `x = 3`, `d = 96`. -/
theorem pxToMm_mmToPx_roundtrip_witness :
    pxToMm (mmToPx 3 96) 96 = 3 :=
  pxToMm_mmToPx_roundtrip 3 96 (by norm_num) (by norm_num)

/-- C6: a bulk-import text that trims to fewer than two lines leaves the
attendee table exactly unchanged (and, being a total function, raises
nothing). -/
theorem bulkUpload_short_noop (gen : ℕ → String) (text : String)
    (people : List Person) (h : (linesOf text).length < 2) :
    handleBulkUpload gen text people = people := by
  unfold handleBulkUpload
  simp [h]

/-- Witness for C6 on a header-only input. -/
theorem bulkUpload_short_noop_witness :
    handleBulkUpload (fun _ => "a") "Name,Role" [[("id", "1")]] = [[("id", "1")]] :=
  bulkUpload_short_noop _ _ _ (by decide)

/-- C5: with at least two lines, the import replaces the table (the
result does not depend on the previous table), produces one record per
data line, and on `"Name,Role\nAda,Speaker\nLinus,Staff"` yields exactly
the two records `{Name: Ada, Role: Speaker}` and `{Name: Linus,
Role: Staff}`, each with its own freshly generated id — distinct when
the id generator is injective. -/
theorem handleBulkUpload_spec :
    (∀ (gen : ℕ → String) (text : String) (people people' : List Person),
       2 ≤ (linesOf text).length →
       handleBulkUpload gen text people = handleBulkUpload gen text people')
    ∧ (∀ (gen : ℕ → String) (text : String) (people : List Person),
       2 ≤ (linesOf text).length →
       (handleBulkUpload gen text people).length = (linesOf text).length - 1)
    ∧ (∀ (gen : ℕ → String) (people : List Person),
       handleBulkUpload gen "Name,Role\nAda,Speaker\nLinus,Staff" people =
         [[("id", gen 0), ("Name", "Ada"), ("Role", "Speaker")],
          [("id", gen 1), ("Name", "Linus"), ("Role", "Staff")]])
    ∧ (∀ (gen : ℕ → String) (people : List Person), Function.Injective gen →
       ((handleBulkUpload gen "Name,Role\nAda,Speaker\nLinus,Staff" people).map
          (lookupKey "id")).Nodup) := by
  refine ⟨?_, ?_, ?_, ?_⟩
  · intro gen text people people' h
    unfold handleBulkUpload
    rw [if_neg (by omega), if_neg (by omega)]
    cases hL : linesOf text with
    | nil => rw [hL] at h; simp at h
    | cons l0 rest => rfl
  · intro gen text people h
    unfold handleBulkUpload
    rw [if_neg (by omega)]
    cases hL : linesOf text with
    | nil => rw [hL] at h; simp at h
    | cons l0 rest => simp [hL]
  · intro gen people; rfl
  · intro gen people hinj
    have hmap :
        ((handleBulkUpload gen "Name,Role\nAda,Speaker\nLinus,Staff" people).map
          (lookupKey "id")) = [some (gen 0), some (gen 1)] := rfl
    rw [hmap]
    simp only [List.nodup_cons, List.mem_singleton, List.not_mem_nil,
      not_false_iff, List.nodup_nil, and_true]
    intro hc
    exact absurd (hinj (Option.some.inj hc)) (by decide)

/-- Witness for C5: replacement independence at a concrete input, and
distinct ids for a concrete injective generator. -/
theorem handleBulkUpload_spec_witness :
    (handleBulkUpload (fun _ => "k") "Name,Role\nAda,Speaker\nLinus,Staff" [] =
      handleBulkUpload (fun _ => "k") "Name,Role\nAda,Speaker\nLinus,Staff"
        [[("id", "z")]])
    ∧ ((handleBulkUpload (fun n => String.mk (List.replicate n 'a'))
          "Name,Role\nAda,Speaker\nLinus,Staff" []).map (lookupKey "id")).Nodup :=
  ⟨handleBulkUpload_spec.1 _ _ _ _ (by decide),
   handleBulkUpload_spec.2.2.2 _ [] (fun a b h => by
     have := congrArg (fun s : String => s.data.length) h
     simpa using this)⟩

/-- C10: a header column literally named `"id"` overrides the generated
id with the row's (non-empty) CSV value for that column; two rows with
the same `"id"` value therefore produce records with colliding ids. -/
theorem csv_id_override :
    (∀ (g : String) (pre post values : List String) (v : String),
       "id" ∉ post → values[pre.length]? = some v → v ≠ "" →
       lookupKey "id" (buildPerson g (pre ++ "id" :: post) values) = some v)
    ∧ (∀ (gen : ℕ → String) (people : List Person),
       (handleBulkUpload gen "x,id\na,7\nb,7" people).map (lookupKey "id") =
         [some "7", some "7"]) := by
  constructor
  · intro g pre post values v hpost hv hne
    unfold buildPerson
    exact insertCols_id pre _ 0 post values v hpost (by simpa using hv) hne
  · intro gen people; rfl

/-- Witness for C10: the `"id"` column of `["x", "id"]` with value `"7"`
overrides the generated id `"gg"`. -/
theorem csv_id_override_witness :
    lookupKey "id" (buildPerson "gg" (["x"] ++ "id" :: []) ["a", "7"]) = some "7" :=
  csv_id_override.1 "gg" ["x"] [] ["a", "7"] "7" (by decide) rfl (by decide)

/-- C1: over a non-empty person list the document has `N` pages when no
back background and no back field exists, `2N` pages when either does;
and every person contributes the same number of pages (back-page
emission depends only on the templates and field list). -/
theorem pageCount_law (cfg : CardConfig) (tmpl : Templates) (fields : List Field)
    (people : List Person) (h : people ≠ []) :
    ((generatePDF cfg tmpl fields people).pages.length =
      if hasBackContent tmpl fields then 2 * people.length else people.length)
    ∧ ∀ p ∈ people,
        (personPages tmpl fields (cfg.width * 10) (cfg.height * 10) p).length =
          if hasBackContent tmpl fields then 2 else 1 := by
  constructor
  · have hpages :
        (generatePDF cfg tmpl fields people).pages =
          people.flatMap (personPages tmpl fields (cfg.width * 10) (cfg.height * 10)) := by
      unfold generatePDF
      cases people with
      | nil => exact absurd rfl h
      | cons p ps => rfl
    rw [hpages]
    cases hb : hasBackContent tmpl fields
    · rw [if_neg (by simp [hb])]
      simpa using length_flatMap_const _ 1
        (fun p => by rw [personPages_length, if_neg (by simp [hb])]) people
    · rw [if_pos (by simp [hb])]
      exact length_flatMap_const _ 2
        (fun p => by rw [personPages_length, if_pos (by simp [hb])]) people
  · intro p _
    exact personPages_length tmpl fields _ _ p

/-- Witness for C1: three people, no back content — three pages. -/
theorem pageCount_law_witness :
    (generatePDF DEFAULT_CONFIG ⟨none, none⟩ [] [[("id", "1")], [("id", "2")], [("id", "3")]]).pages.length =
      if hasBackContent ⟨none, none⟩ [] then 2 * 3 else 3 :=
  (pageCount_law DEFAULT_CONFIG ⟨none, none⟩ [] [[("id", "1")], [("id", "2")], [("id", "3")]]
    (by decide)).1

/-- C2: the text emitted for a field resolves to the person's value for
the field's data key when that key is present with a non-empty value,
and to the field's own `name` otherwise; every text run the document
carries is such a resolution, and every field's run appears on its
person's page — through the same `mkRun` for front and back sides
alike. -/
theorem fieldText_law :
    (∀ (p : Person) (f : Field) (v : String),
       lookupKey f.name p = some v → v ≠ "" → resolveText p f = v)
    ∧ (∀ (p : Person) (f : Field),
       lookupKey f.name p = none ∨ lookupKey f.name p = some "" →
       resolveText p f = f.name)
    ∧ (∀ (cfg : CardConfig) (tmpl : Templates) (fields : List Field)
         (people : List Person) (pg : Page) (r : TextRun),
       pg ∈ (generatePDF cfg tmpl fields people).pages → DrawOp.text r ∈ pg →
       ∃ p ∈ people, ∃ f ∈ fields, r = mkRun p f)
    ∧ (∀ (tmpl : Templates) (fields : List Field) (wm hm : ℚ) (p : Person)
         (f : Field), f ∈ fields →
       ∃ pg ∈ personPages tmpl fields wm hm p, DrawOp.text (mkRun p f) ∈ pg) := by
  refine ⟨?_, ?_, ?_, ?_⟩
  · intro p f v hv hne
    unfold resolveText
    rw [hv]
    simp only [if_neg hne]
  · intro p f hv
    unfold resolveText
    rcases hv with hv | hv <;> rw [hv]
    simp
  · intro cfg tmpl fields people pg r hpg hr
    unfold generatePDF at hpg
    cases people with
    | nil =>
      simp only [List.mem_singleton] at hpg
      subst hpg
      exact absurd hr (List.not_mem_nil _)
    | cons p0 ps =>
      rcases List.mem_flatMap.mp hpg with ⟨p, hp, hpgp⟩
      rcases page_mem_personPages hpgp with hfront | hback
      · subst hfront
        rcases text_mem_sidePage hr with ⟨f, hf, hrf⟩
        exact ⟨p, hp, f, hf, hrf⟩
      · subst hback
        rcases text_mem_sidePage hr with ⟨f, hf, hrf⟩
        exact ⟨p, hp, f, hf, hrf⟩
  · intro tmpl fields wm hm p f hf
    cases hside : f.side
    · refine ⟨sidePage tmpl.front wm hm fields Side.front p,
        List.mem_cons_self _ _, ?_⟩
      unfold sidePage
      exact List.mem_cons_of_mem _
        (List.mem_map_of_mem _ (List.mem_filter.mpr ⟨hf, by simp [hside]⟩))
    · have hb : hasBackContent tmpl fields = true := by
        unfold hasBackContent
        refine Bool.or_eq_true_iff.mpr (Or.inr ?_)
        exact List.any_eq_true.mpr ⟨f, hf, by simp [hside]⟩
      refine ⟨sidePage tmpl.back wm hm fields Side.back p, ?_, ?_⟩
      · unfold personPages
        rw [if_pos hb]
        exact List.mem_cons_of_mem _ (List.mem_singleton.mpr rfl)
      · unfold sidePage
        exact List.mem_cons_of_mem _
          (List.mem_map_of_mem _ (List.mem_filter.mpr ⟨hf, by simp [hside]⟩))

/-- Witness for C2: on the sample data, the field named `Role` renders
`Staff` for a person carrying that key, and its literal name for a
person lacking it. -/
theorem fieldText_law_witness :
    resolveText [("id", "1"), ("Role", "Staff")]
        ⟨"f2", "Role", 70, 55, 16, "#2563EB", "helvetica", Align.center, Side.front⟩ =
      "Staff"
    ∧ resolveText [("id", "2")]
        ⟨"f2", "Role", 70, 55, 16, "#2563EB", "helvetica", Align.center, Side.front⟩ =
      "Role" :=
  ⟨fieldText_law.1 _ _ "Staff" rfl (by decide),
   fieldText_law.2.1 _ _ (Or.inl rfl)⟩

/-- C3: merge output places every field's text run exactly at the
field's stored `(x, y)` millimetre coordinates, and two merge runs over
configurations agreeing on width and height (so differing at most in
`dpi`) produce identical documents — `generatePDF` never reads
resolution. -/
theorem geometry_determinism :
    (∀ (p : Person) (f : Field), (mkRun p f).x = f.x ∧ (mkRun p f).y = f.y)
    ∧ (∀ (c1 c2 : CardConfig) (tmpl : Templates) (fields : List Field)
         (people : List Person),
       c1.width = c2.width → c1.height = c2.height →
       generatePDF c1 tmpl fields people = generatePDF c2 tmpl fields people) := by
  constructor
  · intro p f
    exact ⟨rfl, rfl⟩
  · intro c1 c2 tmpl fields people hw hh
    obtain ⟨w1, h1, d1⟩ := c1
    obtain ⟨w2, h2, d2⟩ := c2
    simp only [CardConfig.mk.injEq] at *
    subst hw
    subst hh
    rfl

/-- Witness for C3: a 14cm × 9.5cm card with a `(70, 40)` field exports
the same document at 96 dpi and at 300 dpi, with the run at `(70, 40)`. -/
theorem geometry_determinism_witness :
    generatePDF ⟨14, 9.5, 96⟩ ⟨none, none⟩
        [⟨"f1", "Full Name", 70, 40, 24, "#000000", "helvetica", Align.center, Side.front⟩]
        [[("id", "1")]] =
      generatePDF ⟨14, 9.5, 300⟩ ⟨none, none⟩
        [⟨"f1", "Full Name", 70, 40, 24, "#000000", "helvetica", Align.center, Side.front⟩]
        [[("id", "1")]] :=
  geometry_determinism.2 _ _ _ _ _ rfl rfl

/-- C7 counterexample: the claimed invariant `width > 0 ∧ height > 0 ∧
resolution > 0` fails in the state reached by one width edit with
non-numeric input (`parseFloat` yields `NaN`, coerced to `0` by
`|| 0`). -/
theorem config_invariant_cex :
    ¬ (0 < (reachConfig [ConfigOp.setWidth none]).width
       ∧ 0 < (reachConfig [ConfigOp.setWidth none]).height
       ∧ 0 < (reachConfig [ConfigOp.setWidth none]).dpi) := by
  intro h
  exact absurd h.1 (by norm_num [reachConfig, stepConfig, parsedOrZero, DEFAULT_CONFIG])

/-- C7 (amended): in every state reachable through the
card-configuration update operations the resolution is still the
default 96, hence positive; width and height positivity is not
preserved (non-numeric input is coerced to zero). -/
theorem config_resolution_invariant :
    ∀ ops : List ConfigOp,
      (reachConfig ops).dpi = 96 ∧ 0 < (reachConfig ops).dpi := by
  have aux : ∀ (ops : List ConfigOp) (c : CardConfig),
      (List.foldl stepConfig c ops).dpi = c.dpi := by
    intro ops
    induction ops with
    | nil => intro c; rfl
    | cons op ops ih =>
      intro c
      cases op <;> simp only [List.foldl_cons, stepConfig] <;> exact ih _
  intro ops
  have h96 : (reachConfig ops).dpi = 96 := by
    unfold reachConfig
    rw [aux ops DEFAULT_CONFIG]
    rfl
  exact ⟨h96, by rw [h96]; norm_num⟩

/-- C8 counterexample: `updateField`'s payload type is `Partial<Field>`,
which includes `id`; after `addField` (which selects the new field) an
`updateField` call that rewrites that field's `id` leaves the selection
referring to an id no field carries. -/
theorem selection_integrity_cex :
    ¬ SelInv (reachFields
        [FieldOp.add "g1" DEFAULT_CONFIG Side.front,
         FieldOp.update "g1" { id := some "zz" }]) := by
  intro h
  rcases h "g1" rfl with ⟨f, hf, hid⟩
  revert f
  decide

/-- C8 (amended): provided no `updateField` payload in the sequence
overrides the `id` property — true of every call site in the app —
after every sequence of `addField`, `updateField`, `removeField`
operations the selection is null or the id of a present field; and
`removeField(id)` always nulls the selection when the removed field was
the selected one. -/
theorem selection_integrity (ops : List FieldOp)
    (hIdFree : ∀ op ∈ ops, ∀ (id : String) (u : FieldUpdate),
      op = FieldOp.update id u → u.id = none) :
    SelInv (reachFields ops)
    ∧ ∀ (s : EditorState) (id : String), s.selected = some id →
        (stepFields s (FieldOp.remove id)).selected = none := by
  constructor
  · have step : ∀ (s : EditorState) (op : FieldOp),
        (∀ (id : String) (u : FieldUpdate), op = FieldOp.update id u → u.id = none) →
        SelInv s → SelInv (stepFields s op) := by
      intro s op hop hs
      cases op with
      | add newId cfg side =>
        intro i hi
        simp only [stepFields, Option.some.injEq] at hi
        refine ⟨newFieldFor newId cfg side, by simp [stepFields], hi⟩
      | update id u =>
        have hu : u.id = none := hop id u rfl
        intro i hi
        simp only [stepFields] at hi
        rcases hs i hi with ⟨f, hf, hfid⟩
        refine ⟨if f.id = id then applyUpdate f u else f, ?_, ?_⟩
        · exact List.mem_map_of_mem _ hf
        · split
          · simp [applyUpdate, hu, hfid]
          · exact hfid
      | remove id =>
        intro i hi
        simp only [stepFields] at hi
        by_cases hsel : s.selected = some id
        · rw [if_pos hsel] at hi
          cases hi
        · rw [if_neg hsel] at hi
          rcases hs i hi with ⟨f, hf, hfid⟩
          refine ⟨f, ?_, hfid⟩
          simp only [stepFields, removeFieldList, List.mem_filter, decide_eq_true_eq]
          refine ⟨hf, ?_⟩
          intro hcon
          exact hsel (by rw [hi, ← hcon, hfid])
    have init : SelInv initEditorState := by
      intro i hi
      cases hi
    have aux : ∀ (ops' : List FieldOp) (s : EditorState),
        (∀ op ∈ ops', ∀ (id : String) (u : FieldUpdate),
          op = FieldOp.update id u → u.id = none) →
        SelInv s → SelInv (List.foldl stepFields s ops') := by
      intro ops'
      induction ops' with
      | nil => intro s _ hs; exact hs
      | cons op rest ih =>
        intro s hfree hs
        rw [List.foldl_cons]
        exact ih _ (fun o ho => hfree o (List.mem_cons_of_mem _ ho))
          (step s op (hfree op (List.mem_cons_self _ _)) hs)
    exact aux ops initEditorState hIdFree init
  · intro s id hsel
    simp [stepFields, hsel]

/-- Witness for C8: adding a field and removing it again keeps the
selection reference intact (it ends `null`). -/
theorem selection_integrity_witness :
    SelInv (reachFields
      [FieldOp.add "g1" DEFAULT_CONFIG Side.front, FieldOp.remove "g1"]) :=
  (selection_integrity
    [FieldOp.add "g1" DEFAULT_CONFIG Side.front, FieldOp.remove "g1"]
    (by
      intro op hop id u heq
      rcases List.mem_cons.mp hop with h | h
      · subst h; cases heq
      · rcases List.mem_singleton.mp h with h'
        subst h'; cases heq)).1

/-- C9: `updateField` merges the partial changes into exactly the
fields carrying the given id, leaves every other position unchanged and
preserves length (hence order); `removeField` removes exactly the
fields with that id, keeping the remaining fields' relative order (the
result is a sublist). -/
theorem update_remove_frame (fields : List Field) (id : String) (u : FieldUpdate) :
    (updateFieldList fields id u).length = fields.length
    ∧ (∀ (i : ℕ) (f : Field), fields[i]? = some f → f.id ≠ id →
        (updateFieldList fields id u)[i]? = some f)
    ∧ (∀ (i : ℕ) (f : Field), fields[i]? = some f → f.id = id →
        (updateFieldList fields id u)[i]? = some (applyUpdate f u))
    ∧ (∀ f ∈ removeFieldList fields id, f.id ≠ id)
    ∧ (∀ f ∈ fields, f.id ≠ id → f ∈ removeFieldList fields id)
    ∧ (removeFieldList fields id).Sublist fields := by
  refine ⟨?_, ?_, ?_, ?_, ?_, ?_⟩
  · exact List.length_map _ _
  · intro i f hf hne
    unfold updateFieldList
    rw [List.getElem?_map, hf]
    simp [if_neg hne]
  · intro i f hf hid
    unfold updateFieldList
    rw [List.getElem?_map, hf]
    simp [if_pos hid]
  · intro f hf
    have := List.mem_filter.mp hf
    simpa using this.2
  · intro f hf hne
    exact List.mem_filter.mpr ⟨hf, by simpa using hne⟩
  · exact List.filter_sublist _

/-- Witness for C9: updating field `f1` of the seed list leaves `f2`
(at index 1) untouched. -/
theorem update_remove_frame_witness :
    (updateFieldList initEditorState.fields "f1" { x := some 1 })[1]? =
      some ⟨"f2", "Role", 70, 55, 16, "#2563EB", "helvetica", Align.center, Side.front⟩ :=
  (update_remove_frame initEditorState.fields "f1" { x := some 1 }).2.1 1
    ⟨"f2", "Role", 70, 55, 16, "#2563EB", "helvetica", Align.center, Side.front⟩
    rfl (by decide)

end IDCard

